import Mathlib

/-!
# Verification of the `bindgen_plugin` argument parsing and binding subsystem

This file gives a shallow embedding, in Lean 4, of the three core pieces of
`src/bindgen_plugin/src/parser.rs`:

* `parse_process_args` — the shell-like splitter of one free-text string into
  command-line style tokens (quoting and escaping);
* `BindgenArgsVisitor` — the semantic binder (`visit_str`, `visit_int`,
  `visit_uint`, `visit_bool`, `visit_ident`) that maps `(optional name, typed
  literal)` pairs onto the fields of a `BindgenOptions` value;
* `parse_macro_opts` — the driver loop over the macro's token stream.

Modelling choices:

* Strings handled character by character in the Rust code are modelled as
  `List Char`.  The Rust code mixes `chars().enumerate()` indices with byte
  slicing; the two coincide on ASCII input, and the embedding uses character
  indices throughout.
* Rust's `Vec` push/extend become `List` append; `&mut` state is threaded
  explicitly.
* The expression parse + macro expansion of a value position
  (`cx.expander().fold_expr(parser.parse_expr().unwrap())`) is an external
  collaborator of the core (syntex's expression parser).  A value expression
  is therefore modelled as a single pre-parsed token carrying its reduced
  form; a value position holding no expression token (end of stream, a comma,
  or an `=`) makes `parse_expr` fail, so `.unwrap()` panics — modelled as
  `Option.none` for the whole call.
* Diagnostics (`cx.span_err`) are modelled as a list of emitted message
  texts, returned alongside the result.
-/

namespace BindgenPlugin

/-! ## The shell-argument splitter `parse_process_args` -/

/-- `QuoteState` from parser.rs: the scanner is outside quotes, inside a
single-quoted region, or inside a double-quoted region. -/
inductive QuoteState where
  | InNone
  | InSingleQuotes
  | InDoubleQuotes
deriving DecidableEq, Repr

/-- Character-level model of Rust `str::trim`: drop whitespace from both
ends. -/
def trimChars (s : List Char) : List Char :=
  ((s.dropWhile Char.isWhitespace).reverse.dropWhile Char.isWhitespace).reverse

/-- Character-level model of Rust `str::replace` for a two-character pattern
`[a, b]` replaced by the single character `r`: leftmost, non-overlapping. -/
def replace2 (a b r : Char) : List Char → List Char
  | x :: y :: rest =>
      if x = a ∧ y = b then r :: replace2 a b r rest
      else x :: replace2 a b r (y :: rest)
  | other => other

/-- Character-index slice `s[a..b]`, as used at the token boundary in
`parse_process_args` (byte indices in Rust; identical on ASCII input). -/
def slice (s : List Char) (a b : Nat) : List Char :=
  (s.drop a).take (b - a)

/-- Pair up a position list into `(start, end)` slices exactly as the Rust
code's `starts.zip(ends)` over even/odd indexed elements does (a trailing
unmatched start is dropped by `zip`). -/
def pairUp : List Nat → List (Nat × Nat)
  | a :: b :: rest => (a, b) :: pairUp rest
  | _ => []

/-- The post-processing applied to a closed part at a token boundary, in
source order: trim, then `\"`→`"`, `\'`→`'`, `\ `→` `, `\\`→`\`. -/
def postprocess (p : List Char) : List Char :=
  replace2 '\\' '\\' '\\'
    (replace2 '\\' ' ' ' '
      (replace2 '\\' '\'' '\''
        (replace2 '\\' '\"' '\"' (trimChars p))))

/-- The scanner state of `parse_process_args`: quote state, the `positions`
vector of open slice boundaries, the previous character `last`, and the
output parts accumulated so far. -/
structure SplitState where
  quote : QuoteState
  positions : List Nat
  last : Char
  parts : List (List Char)
deriving Repr

/-- The token-boundary block of `parse_process_args` (the `(_, ' ')` arm):
push the current index, cut the accumulated position pairs out of `s`, join
them, and— if the joined part is non-empty **before** trimming — trim,
unescape and emit it; then restart `positions` at `i + 1`. -/
def boundary (s : List Char) (st : SplitState) (i : Nat) : SplitState :=
  let poss := st.positions ++ [i]
  let part := ((pairUp poss).map (fun q => slice s q.1 q.2)).flatten
  let parts' := if part.length > 0 then st.parts ++ [postprocess part] else st.parts
  { st with parts := parts', positions := [i + 1] }

/-- One iteration of the `for (i, c)` loop of `parse_process_args`: the match
arms on `(last, c)`, in source order, followed by `last = c`. -/
def procChar (s : List Char) (slen : Nat) (st : SplitState) (i : Nat) (c : Char) : SplitState :=
  let st1 :=
    if st.last = '\\' ∧ c = '\"' then st
    else if st.last = '\\' ∧ c = '\'' then st
    else if st.last = '\\' ∧ c = ' ' ∧ i < slen then st
    else if st.last = '\\' ∧ c = '\\' then st
    else if c = '\"' ∧ st.quote = QuoteState.InNone then
      { st with quote := QuoteState.InDoubleQuotes, positions := st.positions ++ [i, i + 1] }
    else if c = '\"' ∧ st.quote = QuoteState.InDoubleQuotes then
      { st with quote := QuoteState.InNone, positions := st.positions ++ [i, i + 1] }
    else if c = '\'' ∧ st.quote = QuoteState.InNone then
      { st with quote := QuoteState.InSingleQuotes, positions := st.positions ++ [i, i + 1] }
    else if c = '\'' ∧ st.quote = QuoteState.InSingleQuotes then
      { st with quote := QuoteState.InNone, positions := st.positions ++ [i, i + 1] }
    else if c = ' ' ∧ (st.quote = QuoteState.InNone ∨ slen ≤ i) then
      boundary s st i
    else st
  { st1 with last := c }

/-- `fn parse_process_args(s: &str) -> Vec<String>`: trim the input, then
scan its characters followed by one synthetic trailing space, starting from
`positions = vec![0]`, `last = ' '`. -/
def parse_process_args (s0 : List Char) : List (List Char) :=
  let s := trimChars s0
  let slen := s.length
  ((s ++ [' ']).enum.foldl (fun st q => procChar s slen st q.1 q.2)
    { quote := QuoteState.InNone, positions := [0], last := ' ', parts := [] }).parts

/-- `parse_process_args` on Lean `String`s. -/
def parseProcessArgsStr (s : String) : List String :=
  (parse_process_args s.toList).map (fun l => String.mk l)

/-! ## The configuration object and the semantic binder -/

/-- `bindgen::LinkType` (the `links` entry kinds used by the binder). -/
inductive LinkType where
  | Static
  | Dynamic
  | Framework
deriving DecidableEq, Repr

/-- The fields of `bindgen::BindgenOptions` touched by the binder.  The
struct itself lives in the external `bindgen` crate; its defaults are
modelled from the spec (§3: `builtins = true` set by the caller, lists empty,
`fail_on_unknown_type` and `override_enum_ty` at zero values). -/
structure BindgenOptions where
  builtins : Bool := true
  fail_on_unknown_type : Bool := false
  override_enum_ty : String := ""
  clang_args : List String := []
  match_pat : List String := []
  links : List (String × LinkType) := []
deriving DecidableEq, Repr

/-- The options value `bindgen_macro` starts from:
`BindgenOptions { builtins: true, ..Default::default() }`. -/
def BindgenOptions.mkDefault : BindgenOptions := {}

/-- Character-level model of Rust `val.split('=')`: split into the (always
non-empty) list of separator-free segments. -/
def splitEq : List Char → List (List Char)
  | [] => [[]]
  | c :: rest =>
      match splitEq rest with
      | [] => [[]]
      | p :: ps => if c = '=' then [] :: p :: ps else (c :: p) :: ps

/-- `val.split('=')` on Lean `String`s. -/
def splitEqStr (s : String) : List String :=
  (splitEq s.toList).map (fun l => String.mk l)

/-- The link-kind arm of `visit_str`'s two-part `link` match:
`static`/`dynamic`/`framework` map to their `LinkType`; anything else is the
`_ => return false` arm, rendered as `none`. -/
def linkKindOf (p0 : String) : Option LinkType :=
  if p0 = "static" then some LinkType.Static
  else if p0 = "dynamic" then some LinkType.Dynamic
  else if p0 = "framework" then some LinkType.Framework
  else none

/-- `struct BindgenArgsVisitor` — the binder: the options being built plus
the `seen_named` flag (`&mut` state threaded explicitly). -/
structure BindgenArgsVisitor where
  options : BindgenOptions
  seen_named : Bool
deriving DecidableEq, Repr

/-- `BindgenArgsVisitor::visit_str`: set `seen_named` if a name is present,
otherwise default the name to `"clang_args"` while no named argument has been
seen; then dispatch on the name (`link` / `match` / `clang_args` /
`enum_type`), rejecting anything else.  The `link` value is split on `=`;
a malformed split rejects before anything is pushed. -/
def BindgenArgsVisitor.visit_str (v : BindgenArgsVisitor) (name : Option String)
    (val : String) : Bool × BindgenArgsVisitor :=
  let v1 := if name.isSome then { v with seen_named := true } else v
  let name1 := if name.isSome then name
               else if !v1.seen_named then some "clang_args" else name
  match name1 with
  | some "link" =>
      match splitEqStr val with
      | [p0] =>
          (true, { v1 with options :=
            { v1.options with links := v1.options.links ++ [(p0, LinkType.Dynamic)] } })
      | [p0, p1] =>
          match linkKindOf p0 with
          | some k =>
              (true, { v1 with options :=
                { v1.options with links := v1.options.links ++ [(p1, k)] } })
          | none => (false, v1)
      | _ => (false, v1)
  | some "match" =>
      (true, { v1 with options :=
        { v1.options with match_pat := v1.options.match_pat ++ [val] } })
  | some "clang_args" =>
      (true, { v1 with options :=
        { v1.options with clang_args := v1.options.clang_args ++ parseProcessArgsStr val } })
  | some "enum_type" =>
      (true, { v1 with options := { v1.options with override_enum_ty := val } })
  | _ => (false, v1)

/-- `BindgenArgsVisitor::visit_int`: record `seen_named`, always reject. -/
def BindgenArgsVisitor.visit_int (v : BindgenArgsVisitor) (name : Option String)
    (_val : Int) : Bool × BindgenArgsVisitor :=
  let v1 := if name.isSome then { v with seen_named := true } else v
  (false, v1)

/-- `BindgenArgsVisitor::visit_uint`: record `seen_named`, always reject. -/
def BindgenArgsVisitor.visit_uint (v : BindgenArgsVisitor) (name : Option String)
    (_val : Nat) : Bool × BindgenArgsVisitor :=
  let v1 := if name.isSome then { v with seen_named := true } else v
  (false, v1)

/-- `BindgenArgsVisitor::visit_bool`: record `seen_named`, then accept only
`allow_unknown_types` (inverted into `fail_on_unknown_type`) and
`builtins`. -/
def BindgenArgsVisitor.visit_bool (v : BindgenArgsVisitor) (name : Option String)
    (val : Bool) : Bool × BindgenArgsVisitor :=
  let v1 := if name.isSome then { v with seen_named := true } else v
  match name with
  | some "allow_unknown_types" =>
      (true, { v1 with options := { v1.options with fail_on_unknown_type := !val } })
  | some "builtins" =>
      (true, { v1 with options := { v1.options with builtins := val } })
  | _ => (false, v1)

/-- `BindgenArgsVisitor::visit_ident`: record `seen_named`, always reject. -/
def BindgenArgsVisitor.visit_ident (v : BindgenArgsVisitor) (name : Option String)
    (_val : String) : Bool × BindgenArgsVisitor :=
  let v1 := if name.isSome then { v with seen_named := true } else v
  (false, v1)

/-! ## The token stream and the driver loop `parse_macro_opts` -/

/-- `ast::LitIntType`: the suffix class of an integer literal. -/
inductive LitIntType where
  | unsigned
  | unsuffixed
  | signed
deriving DecidableEq, Repr

/-- The literal kinds `parse_macro_opts` distinguishes (`ast::LitKind`):
string, bool, integer (with suffix class, payload a `u64`), and `other` for
every remaining kind (char, float, byte, ...). -/
inductive LitKind where
  | str (s : String)
  | boolLit (b : Bool)
  | int (i : Nat) (t : LitIntType)
  | other
deriving DecidableEq, Repr

/-- What `cx.expander().fold_expr(parser.parse_expr())` reduces a value
expression to: a literal node, or some non-literal expression. -/
inductive ExprNode where
  | lit (l : LitKind)
  | nonLit
deriving DecidableEq, Repr

/-- The tokens of the macro invocation stream as `parse_macro_opts` sees
them.  `ident`, `eq` and `comma` are lexer tokens; `expr` stands for a value
expression, pre-reduced by the external expression parser/expander (§6's
literal-expander collaborator).  End of stream (`token::Eof`) is the end of
the list. -/
inductive Token where
  | ident (s : String)
  | eq
  | comma
  | expr (e : ExprNode)
deriving DecidableEq, Repr

/-- `i as i64` applied to a `u64` payload. -/
def i64ofU64 (i : Nat) : Int :=
  if i < 2 ^ 63 then (i : Int) else (i : Int) - 2 ^ 64

/-- The outcome of one `loop` iteration of `parse_macro_opts`: either the
whole call returns (`ret`, where `none` models the `parse_expr().unwrap()`
panic), or a comma was eaten and the loop continues on `rest`. -/
inductive IterResult where
  | ret (r : Option (Bool × BindgenArgsVisitor × List String))
  | next (v : BindgenArgsVisitor) (ag : Bool) (ds : List String) (rest : List Token)
deriving Repr

/-- The trailing part of one iteration, after the value was dispatched:
`parser.check(&token::Eof)` returns `args_good`; eating a comma continues the
loop; any other token is "invalid argument format" and returns false. -/
def iterSep (v : BindgenArgsVisitor) (ag : Bool) (ds : List String) :
    List Token → IterResult
  | [] => IterResult.ret (some (ag, v, ds))
  | Token.comma :: rest => IterResult.next v ag ds rest
  | _ :: _ => IterResult.ret (some (false, v, ds ++ ["invalid argument format"]))

/-- The value part of one iteration, given the optional name already parsed:
a bare ident dispatches to `visit_bool` (for the spellings `true`/`false`) or
`visit_ident`; an expression must reduce to a string/bool/int literal and
dispatches to the matching visit; any other literal kind or a non-literal is
"invalid argument format" (return false); no token that can start an
expression (end of stream, comma, `=`) makes `parse_expr().unwrap()` panic
(`ret none`).  A rejected visit emits "invalid argument" and clears
`args_good`, then falls through to the separator check. -/
def iterValue (v : BindgenArgsVisitor) (ag : Bool) (ds : List String)
    (name : Option String) : List Token → IterResult
  | Token.ident val :: rest =>
      let p := if val = "true" then v.visit_bool name true
               else if val = "false" then v.visit_bool name false
               else v.visit_ident name val
      iterSep p.2 (if p.1 then ag else false)
        (if p.1 then ds else ds ++ ["invalid argument"]) rest
  | Token.expr (ExprNode.lit (LitKind.str s)) :: rest =>
      let p := v.visit_str name s
      iterSep p.2 (if p.1 then ag else false)
        (if p.1 then ds else ds ++ ["invalid argument"]) rest
  | Token.expr (ExprNode.lit (LitKind.boolLit b)) :: rest =>
      let p := v.visit_bool name b
      iterSep p.2 (if p.1 then ag else false)
        (if p.1 then ds else ds ++ ["invalid argument"]) rest
  | Token.expr (ExprNode.lit (LitKind.int i LitIntType.unsigned)) :: rest =>
      let p := v.visit_uint name i
      iterSep p.2 (if p.1 then ag else false)
        (if p.1 then ds else ds ++ ["invalid argument"]) rest
  | Token.expr (ExprNode.lit (LitKind.int i LitIntType.unsuffixed)) :: rest =>
      let p := v.visit_uint name i
      iterSep p.2 (if p.1 then ag else false)
        (if p.1 then ds else ds ++ ["invalid argument"]) rest
  | Token.expr (ExprNode.lit (LitKind.int i LitIntType.signed)) :: rest =>
      let p := v.visit_int name (i64ofU64 i)
      iterSep p.2 (if p.1 then ag else false)
        (if p.1 then ds else ds ++ ["invalid argument"]) rest
  | Token.expr (ExprNode.lit LitKind.other) :: _ =>
      IterResult.ret (some (false, v, ds ++ ["invalid argument format"]))
  | Token.expr ExprNode.nonLit :: _ =>
      IterResult.ret (some (false, v, ds ++ ["invalid argument format"]))
  | _ => IterResult.ret none

/-- One full `loop` iteration of `parse_macro_opts`: the optional
`[ident =]` name prefix (recognized by `look_ahead(1) == Eq`; a non-ident
before `=` is "invalid argument format", return false), then the value and
the separator. -/
def iter (v : BindgenArgsVisitor) (ag : Bool) (ds : List String)
    (tts : List Token) : IterResult :=
  match tts with
  | Token.ident id :: Token.eq :: rest => iterValue v ag ds (some id) rest
  | _ :: Token.eq :: _ =>
      IterResult.ret (some (false, v, ds ++ ["invalid argument format"]))
  | _ => iterValue v ag ds none tts

/-- The `loop` of `parse_macro_opts`, with explicit fuel.  Each iteration
consumes at least one token (`iter_next_length` below), so any fuel above the
stream length is enough and `parseMacroLoop` wraps this with
`tts.length + 1`; fuel exhaustion (which then never occurs) answers
`none`. -/
def parseLoopAux : Nat → BindgenArgsVisitor → Bool → List String → List Token →
    Option (Bool × BindgenArgsVisitor × List String)
  | 0, _, _, _, _ => none
  | n + 1, v, ag, ds, tts =>
      match iter v ag ds tts with
      | IterResult.ret r => r
      | IterResult.next v' ag' ds' rest => parseLoopAux n v' ag' ds' rest

/-- The `loop` of `parse_macro_opts` from a given visitor/`args_good`/
diagnostics state. -/
def parseMacroLoop (v : BindgenArgsVisitor) (ag : Bool) (ds : List String)
    (tts : List Token) : Option (Bool × BindgenArgsVisitor × List String) :=
  parseLoopAux (tts.length + 1) v ag ds tts

/-- `pub fn parse_macro_opts`: run the loop from
`BindgenArgsVisitor { options, seen_named: false }` with `args_good = true`
and no diagnostics; yield the returned `bool`, the final options, and the
diagnostics emitted — or `none` when the call panics. -/
def parse_macro_opts (tts : List Token) (options : BindgenOptions) :
    Option (Bool × BindgenOptions × List String) :=
  (parseMacroLoop { options := options, seen_named := false } true [] tts).map
    (fun r => (r.1, r.2.1.options, r.2.2))

/-! ## Well-formed argument streams

To state the spec's contract over streams of the shape `Arg (, Arg)* ,?` we
give the obvious encoding of a list of well-formed arguments into tokens,
and the corresponding direct sequence of binder visits. -/

/-- A well-formed argument value: a bare identifier (whose spellings `true`
and `false` the lexer coerces to bool), or a string/bool/int literal
expression. -/
inductive Value where
  | ident (s : String)
  | str (s : String)
  | boolLit (b : Bool)
  | intLit (i : Nat) (t : LitIntType)
deriving DecidableEq, Repr

/-- A well-formed argument: optionally named. -/
inductive Arg where
  | named (id : String) (val : Value)
  | pos (val : Value)
deriving DecidableEq, Repr

/-- The token a well-formed value occupies in the stream. -/
def Value.toToken : Value → Token
  | Value.ident s => Token.ident s
  | Value.str s => Token.expr (ExprNode.lit (LitKind.str s))
  | Value.boolLit b => Token.expr (ExprNode.lit (LitKind.boolLit b))
  | Value.intLit i t => Token.expr (ExprNode.lit (LitKind.int i t))

/-- The tokens of one argument: `[name, =,] value`. -/
def encodeArg : Arg → List Token
  | Arg.named id val => [Token.ident id, Token.eq, val.toToken]
  | Arg.pos val => [val.toToken]

/-- The tokens of a comma-separated argument list, with or without a
trailing comma before the end of the stream. -/
def encodeStream : List Arg → Bool → List Token
  | [], _ => []
  | [a], trailing => encodeArg a ++ (if trailing then [Token.comma] else [])
  | a :: rest, trailing => encodeArg a ++ Token.comma :: encodeStream rest trailing

/-- The binder visit a well-formed value is dispatched to. -/
def applyValue (v : BindgenArgsVisitor) (name : Option String) :
    Value → Bool × BindgenArgsVisitor
  | Value.ident s =>
      if s = "true" then v.visit_bool name true
      else if s = "false" then v.visit_bool name false
      else v.visit_ident name s
  | Value.str s => v.visit_str name s
  | Value.boolLit b => v.visit_bool name b
  | Value.intLit i t =>
      match t with
      | LitIntType.unsigned => v.visit_uint name i
      | LitIntType.unsuffixed => v.visit_uint name i
      | LitIntType.signed => v.visit_int name (i64ofU64 i)

/-- The binder visit one argument is dispatched to. -/
def applyArg (v : BindgenArgsVisitor) : Arg → Bool × BindgenArgsVisitor
  | Arg.named id val => applyValue v (some id) val
  | Arg.pos val => applyValue v none val

/-- All arguments' visits, in order, succeed. -/
def allAccepted : BindgenArgsVisitor → List Arg → Bool
  | _, [] => true
  | v, a :: rest => (applyArg v a).1 && allAccepted (applyArg v a).2 rest

/-- The binder state after visiting every argument in order. -/
def foldArgs : BindgenArgsVisitor → List Arg → BindgenArgsVisitor
  | v, [] => v
  | v, a :: rest => foldArgs (applyArg v a).2 rest

/-- The semantic-error diagnostics the loop emits over a well-formed stream:
one "invalid argument" per rejected visit, in order. -/
def semDiags : BindgenArgsVisitor → List Arg → List String
  | _, [] => []
  | v, a :: rest =>
      (if (applyArg v a).1 then [] else ["invalid argument"]) ++
        semDiags (applyArg v a).2 rest

/-- The visitor carried out of one loop iteration: the returned state on a
normal return, the state passed on through a comma, and nothing on a
panic. -/
def IterSeen : IterResult → Prop
  | IterResult.ret (some (_, v', _)) => v'.seen_named = true
  | IterResult.ret none => True
  | IterResult.next v' _ _ _ => v'.seen_named = true

/-- Every emitted token arises as the trim-and-unescape image of a part that
was non-empty **before** trimming. -/
def GoodParts (l : List (List Char)) : Prop :=
  ∀ t ∈ l, ∃ p, p ≠ [] ∧ t = postprocess p

/-! ## Helper lemmas about the five visit methods -/

theorem visit_str_seen (v : BindgenArgsVisitor) (name : Option String) (val : String) :
    (v.visit_str name val).2.seen_named = (v.seen_named || name.isSome) := by
  cases name <;>
    simp only [BindgenArgsVisitor.visit_str, Option.isSome_some, Option.isSome_none,
      Bool.or_true, Bool.or_false, if_true, if_false, ite_true, ite_false] <;>
    (try split) <;> (try split) <;> (try split) <;> simp_all

theorem visit_int_seen (v : BindgenArgsVisitor) (name : Option String) (val : Int) :
    (v.visit_int name val).2.seen_named = (v.seen_named || name.isSome) := by
  cases name <;> simp [BindgenArgsVisitor.visit_int]

theorem visit_uint_seen (v : BindgenArgsVisitor) (name : Option String) (val : Nat) :
    (v.visit_uint name val).2.seen_named = (v.seen_named || name.isSome) := by
  cases name <;> simp [BindgenArgsVisitor.visit_uint]

theorem visit_bool_seen (v : BindgenArgsVisitor) (name : Option String) (val : Bool) :
    (v.visit_bool name val).2.seen_named = (v.seen_named || name.isSome) := by
  cases name <;>
    simp only [BindgenArgsVisitor.visit_bool, Option.isSome_some, Option.isSome_none,
      Bool.or_true, Bool.or_false, if_true, if_false, ite_true, ite_false] <;>
    (try split) <;> simp_all

theorem visit_ident_seen (v : BindgenArgsVisitor) (name : Option String) (val : String) :
    (v.visit_ident name val).2.seen_named = (v.seen_named || name.isSome) := by
  cases name <;> simp [BindgenArgsVisitor.visit_ident]

theorem visit_str_reject_opts (v : BindgenArgsVisitor) (name : Option String) (val : String)
    (h : (v.visit_str name val).1 = false) :
    (v.visit_str name val).2.options = v.options := by
  cases name <;>
    simp only [BindgenArgsVisitor.visit_str, Option.isSome_some, Option.isSome_none,
      if_true, if_false, ite_true, ite_false] at h ⊢ <;>
    (try split at h) <;> (try split at h) <;> (try split at h) <;> simp_all

theorem visit_int_reject_opts (v : BindgenArgsVisitor) (name : Option String) (val : Int) :
    (v.visit_int name val).2.options = v.options := by
  cases name <;> simp [BindgenArgsVisitor.visit_int]

theorem visit_uint_reject_opts (v : BindgenArgsVisitor) (name : Option String) (val : Nat) :
    (v.visit_uint name val).2.options = v.options := by
  cases name <;> simp [BindgenArgsVisitor.visit_uint]

theorem visit_bool_reject_opts (v : BindgenArgsVisitor) (name : Option String) (val : Bool)
    (h : (v.visit_bool name val).1 = false) :
    (v.visit_bool name val).2.options = v.options := by
  cases name <;>
    simp only [BindgenArgsVisitor.visit_bool, Option.isSome_some, Option.isSome_none,
      if_true, if_false, ite_true, ite_false] at h ⊢ <;>
    (try split at h) <;> simp_all

theorem visit_ident_reject_opts (v : BindgenArgsVisitor) (name : Option String) (val : String) :
    (v.visit_ident name val).2.options = v.options := by
  cases name <;> simp [BindgenArgsVisitor.visit_ident]

/-! ## Lemmas about one loop iteration and the loop -/

theorem iterSep_seen (v : BindgenArgsVisitor) (ag : Bool) (ds : List String)
    (tts : List Token) (h : v.seen_named = true) : IterSeen (iterSep v ag ds tts) := by
  match tts with
  | [] => simpa [iterSep, IterSeen] using h
  | Token.comma :: rest => simpa [iterSep, IterSeen] using h
  | Token.ident s :: rest => simpa [iterSep, IterSeen] using h
  | Token.eq :: rest => simpa [iterSep, IterSeen] using h
  | Token.expr e :: rest => simpa [iterSep, IterSeen] using h

theorem iterValue_seen (v : BindgenArgsVisitor) (ag : Bool) (ds : List String)
    (name : Option String) (tts : List Token) (h : v.seen_named = true) :
    IterSeen (iterValue v ag ds name tts) := by
  match tts with
  | [] => simp [iterValue, IterSeen]
  | Token.eq :: rest => simp [iterValue, IterSeen]
  | Token.comma :: rest => simp [iterValue, IterSeen]
  | Token.ident val :: rest =>
      simp only [iterValue]
      apply iterSep_seen
      by_cases h1 : val = "true" <;> by_cases h2 : val = "false" <;>
        simp [h1, h2, visit_bool_seen, visit_ident_seen, h]
  | Token.expr ExprNode.nonLit :: rest => simpa [iterValue, IterSeen] using h
  | Token.expr (ExprNode.lit LitKind.other) :: rest => simpa [iterValue, IterSeen] using h
  | Token.expr (ExprNode.lit (LitKind.str s)) :: rest =>
      simp only [iterValue]
      exact iterSep_seen _ _ _ _ (by simp [visit_str_seen, h])
  | Token.expr (ExprNode.lit (LitKind.boolLit b)) :: rest =>
      simp only [iterValue]
      exact iterSep_seen _ _ _ _ (by simp [visit_bool_seen, h])
  | Token.expr (ExprNode.lit (LitKind.int i LitIntType.unsigned)) :: rest =>
      simp only [iterValue]
      exact iterSep_seen _ _ _ _ (by simp [visit_uint_seen, h])
  | Token.expr (ExprNode.lit (LitKind.int i LitIntType.unsuffixed)) :: rest =>
      simp only [iterValue]
      exact iterSep_seen _ _ _ _ (by simp [visit_uint_seen, h])
  | Token.expr (ExprNode.lit (LitKind.int i LitIntType.signed)) :: rest =>
      simp only [iterValue]
      exact iterSep_seen _ _ _ _ (by simp [visit_int_seen, h])

theorem iter_seen (v : BindgenArgsVisitor) (ag : Bool) (ds : List String)
    (tts : List Token) (h : v.seen_named = true) : IterSeen (iter v ag ds tts) := by
  match tts with
  | Token.ident id :: Token.eq :: rest =>
      simpa only [iter] using iterValue_seen v ag ds (some id) rest h
  | [] => simpa only [iter] using iterValue_seen v ag ds none [] h
  | [t] =>
      cases t <;> simpa only [iter] using iterValue_seen v ag ds none [_] h
  | t :: t2 :: rest =>
      cases t <;> cases t2 <;>
        first
          | simpa [iter, IterSeen] using h
          | simpa only [iter] using iterValue_seen v ag ds none _ h
          | simpa only [iter] using iterValue_seen v ag ds (some _) _ h

theorem parseLoopAux_seen (n : Nat) (v : BindgenArgsVisitor) (ag : Bool)
    (ds : List String) (tts : List Token) (b : Bool) (v' : BindgenArgsVisitor)
    (ds' : List String) (hrun : parseLoopAux n v ag ds tts = some (b, v', ds'))
    (h : v.seen_named = true) : v'.seen_named = true := by
  induction n generalizing v ag ds tts with
  | zero => simp [parseLoopAux] at hrun
  | succ m ih =>
      have hs := iter_seen v ag ds tts h
      simp only [parseLoopAux] at hrun
      cases hi : iter v ag ds tts with
      | ret r =>
          rw [hi] at hrun hs
          cases r with
          | none => simp at hrun
          | some r' =>
              obtain ⟨b0, v0, ds0⟩ := r'
              simp [IterSeen] at hs
              cases hrun
              exact hs
      | next v0 ag0 ds0 rest =>
          rw [hi] at hrun hs
          simp only [IterSeen] at hs
          exact ih v0 ag0 ds0 rest hrun hs

theorem encodeArg_length_pos (a : Arg) : 1 ≤ (encodeArg a).length := by
  cases a <;> simp [encodeArg]

/-- Running one loop iteration over a well-formed argument followed by a
legal separator position (nothing, or a comma and more tokens) always
reaches the separator check, with exactly the visit `applyArg` dispatches
performed and "invalid argument" emitted when it rejects. -/
theorem iter_encode (v : BindgenArgsVisitor) (ag : Bool) (ds : List String)
    (a : Arg) (suffix : List Token)
    (hs : suffix = [] ∨ ∃ r, suffix = Token.comma :: r) :
    iter v ag ds (encodeArg a ++ suffix) =
      iterSep (applyArg v a).2 (if (applyArg v a).1 then ag else false)
        (if (applyArg v a).1 then ds else ds ++ ["invalid argument"]) suffix := by
  cases a with
  | named id val =>
      cases val with
      | ident s => simp [encodeArg, Value.toToken, iter, iterValue, applyArg, applyValue]
      | str s => simp [encodeArg, Value.toToken, iter, iterValue, applyArg, applyValue]
      | boolLit b => simp [encodeArg, Value.toToken, iter, iterValue, applyArg, applyValue]
      | intLit i t =>
          cases t <;> simp [encodeArg, Value.toToken, iter, iterValue, applyArg, applyValue]
  | pos val =>
      rcases hs with hnil | ⟨r, hcomma⟩ <;> subst_vars <;>
        cases val with
        | ident s => simp [encodeArg, Value.toToken, iter, iterValue, applyArg, applyValue]
        | str s => simp [encodeArg, Value.toToken, iter, iterValue, applyArg, applyValue]
        | boolLit b => simp [encodeArg, Value.toToken, iter, iterValue, applyArg, applyValue]
        | intLit i t =>
            cases t <;> simp [encodeArg, Value.toToken, iter, iterValue, applyArg, applyValue]

theorem parseLoopAux_nil (n : Nat) (v : BindgenArgsVisitor) (ag : Bool)
    (ds : List String) : parseLoopAux n v ag ds [] = none := by
  cases n with
  | zero => rfl
  | succ m => simp [parseLoopAux, iter, iterValue]

/-- The loop over a well-formed comma-separated stream with **no** trailing
comma: every argument is visited in order, `args_good` accumulates the
acceptance of each visit, and one "invalid argument" diagnostic is emitted
per rejection. -/
theorem parseLoopAux_encode_wf (args : List Arg) (v : BindgenArgsVisitor)
    (ag : Bool) (ds : List String) (n : Nat) (hne : args ≠ [])
    (hn : (encodeStream args false).length < n) :
    parseLoopAux n v ag ds (encodeStream args false) =
      some (ag && allAccepted v args, foldArgs v args, ds ++ semDiags v args) := by
  induction args generalizing v ag ds n with
  | nil => exact absurd rfl hne
  | cons a rest ih =>
      cases n with
      | zero => simp at hn
      | succ m =>
          cases rest with
          | nil =>
              have he : encodeStream [a] false = encodeArg a ++ [] := by
                simp [encodeStream]
              rw [he]
              simp only [parseLoopAux,
                iter_encode v ag ds a [] (Or.inl rfl)]
              cases hp : (applyArg v a).1 <;>
                simp [iterSep, allAccepted, foldArgs, semDiags, hp]
          | cons b rest' =>
              have he : encodeStream (a :: b :: rest') false =
                  encodeArg a ++ Token.comma :: encodeStream (b :: rest') false := by
                simp [encodeStream]
              rw [he]
              have hlen : (encodeStream (b :: rest') false).length < m := by
                have h1 := encodeArg_length_pos a
                rw [he] at hn
                simp [List.length_append] at hn
                omega
              simp only [parseLoopAux,
                iter_encode v ag ds a (Token.comma :: encodeStream (b :: rest') false)
                  (Or.inr ⟨_, rfl⟩)]
              simp only [iterSep]
              rw [ih _ _ _ m (by simp) hlen]
              cases hp : (applyArg v a).1 <;>
                simp [allAccepted, foldArgs, semDiags, hp, Bool.and_assoc]

/-- The loop over a well-formed comma-separated stream **with** a trailing
comma: after the last argument the comma is eaten, the loop restarts at the
stream terminator, and `parse_expr().unwrap()` panics. -/
theorem parseLoopAux_encode_trailing (args : List Arg) (v : BindgenArgsVisitor)
    (ag : Bool) (ds : List String) (n : Nat) (hne : args ≠ []) :
    parseLoopAux n v ag ds (encodeStream args true) = none := by
  induction args generalizing v ag ds n with
  | nil => exact absurd rfl hne
  | cons a rest ih =>
      cases n with
      | zero => rfl
      | succ m =>
          cases rest with
          | nil =>
              have he : encodeStream [a] true = encodeArg a ++ [Token.comma] := by
                simp [encodeStream]
              rw [he]
              simp only [parseLoopAux,
                iter_encode v ag ds a [Token.comma] (Or.inr ⟨_, rfl⟩)]
              simp only [iterSep]
              exact parseLoopAux_nil m _ _ _
          | cons b rest' =>
              have he : encodeStream (a :: b :: rest') true =
                  encodeArg a ++ Token.comma :: encodeStream (b :: rest') true := by
                simp [encodeStream]
              rw [he]
              simp only [parseLoopAux,
                iter_encode v ag ds a (Token.comma :: encodeStream (b :: rest') true)
                  (Or.inr ⟨_, rfl⟩)]
              simp only [iterSep]
              exact ih _ _ _ m (by simp)

theorem semDiags_nil_of_allAccepted (args : List Arg) (v : BindgenArgsVisitor)
    (h : allAccepted v args = true) : semDiags v args = [] := by
  induction args generalizing v with
  | nil => rfl
  | cons a rest ih =>
      simp only [allAccepted, Bool.and_eq_true] at h
      simp [semDiags, h.1, ih _ h.2]

theorem splitEq_ne_nil (s : List Char) : splitEq s ≠ [] := by
  induction s with
  | nil => simp [splitEq]
  | cons c rest ih =>
      simp only [splitEq]
      split
      · simp
      · split <;> simp

/-! ## The splitter only emits tokens cut from parts that were non-empty
before trimming -/

theorem boundary_good (s : List Char) (st : SplitState) (i : Nat)
    (h : GoodParts st.parts) : GoodParts (boundary s st i).parts := by
  intro t ht
  simp only [boundary] at ht
  split at ht
  · rename_i hlen
    rcases List.mem_append.mp ht with hold | hnew
    · exact h t hold
    · refine ⟨_, ?_, (List.mem_singleton.mp hnew)⟩
      intro hc
      rw [hc] at hlen
      simp at hlen
  · exact h t ht

theorem procChar_good (s : List Char) (slen : Nat) (st : SplitState) (i : Nat)
    (c : Char) (h : GoodParts st.parts) : GoodParts (procChar s slen st i c).parts := by
  simp only [procChar]
  repeat' split
  all_goals
    first
      | simpa using h
      | simpa using boundary_good s st i h

theorem foldl_procChar_good (s : List Char) (slen : Nat) (l : List (Nat × Char))
    (st : SplitState) (h : GoodParts st.parts) :
    GoodParts ((l.foldl (fun st q => procChar s slen st q.1 q.2) st).parts) := by
  induction l generalizing st with
  | nil => exact h
  | cons q l ih => exact ih _ (procChar_good s slen st q.1 q.2 h)

theorem parse_process_args_good (s0 : List Char) (t : List Char)
    (ht : t ∈ parse_process_args s0) : ∃ p, p ≠ [] ∧ t = postprocess p := by
  refine foldl_procChar_good _ _ _ _ ?_ t ht
  intro u hu
  simp at hu

/-- A syntax-error token at the head of an iteration (here: a literal of an
unsupported kind) returns immediately with exactly one "invalid argument
format" diagnostic, whatever follows it. -/
theorem iter_lit_other (v : BindgenArgsVisitor) (ag : Bool) (ds : List String)
    (rest : List Token) :
    iter v ag ds (Token.expr (ExprNode.lit LitKind.other) :: rest) =
      IterResult.ret (some (false, v, ds ++ ["invalid argument format"])) := by
  cases rest with
  | nil => simp [iter, iterValue]
  | cons t2 r => cases t2 <;> simp [iter, iterValue]

/-! ## The claims -/

/-- Claim C1, counterexample: on the three-character input `" "` (a space
between double quotes) `parse_process_args` returns a list whose only
element is the empty string — the claim "every element of the returned list
is a non-empty string" is false.  The part is non-empty before trimming
(it is the quoted space), so it passes the `part.len() > 0` check, and only
then is trimmed to emptiness. -/
theorem C1_counterexample :
    parseProcessArgsStr "\" \"" = [""] ∧ "" ∈ parseProcessArgsStr "\" \"" := by
  constructor <;> decide

/-- Claim C1 (amended): the non-emptiness check is applied to the
accumulated part **before** it is trimmed: every output token of
`parse_process_args` is the trim-and-unescape image of some part that was
non-empty before trimming.  Hence runs of unquoted spaces (whose parts are
empty) never produce tokens, but a part that is non-empty and
whitespace-only — possible only through quoting — produces an **empty**
output token. -/
theorem C1_theorem (s : List Char) (t : List Char)
    (ht : t ∈ parse_process_args s) : ∃ p, p ≠ [] ∧ t = postprocess p :=
  parse_process_args_good s t ht

theorem C1_witness :
    (['a'] ∈ parse_process_args ['a']) ∧ ∃ p, p ≠ [] ∧ ['a'] = postprocess p :=
  ⟨by decide, C1_theorem ['a'] ['a'] (by decide)⟩

/-- Claim C2, counterexample: the well-formed, binder-accepted stream
`builtins=false` followed by a trailing comma before the terminator is
**not** accepted as if the comma were absent: the loop restarts at the
terminator, where `parser.parse_expr().unwrap()` panics (modelled as
`none`), instead of returning `true`. -/
theorem C2_counterexample :
    allAccepted { options := BindgenOptions.mkDefault, seen_named := false }
        [Arg.named "builtins" (Value.ident "false")] = true ∧
    encodeStream [Arg.named "builtins" (Value.ident "false")] true =
      [Token.ident "builtins", Token.eq, Token.ident "false", Token.comma] ∧
    parse_macro_opts (encodeStream [Arg.named "builtins" (Value.ident "false")] true)
        BindgenOptions.mkDefault = none := by
  refine ⟨by decide, by decide, rfl⟩

/-- Claim C2 (amended): for every non-empty well-formed argument stream all
of whose visits are accepted by the binder, `parse_macro_opts` **without** a
trailing comma consumes the whole stream and returns `true` (with the
binder applied to every argument and no diagnostics); with a trailing comma
before the terminator it instead reaches `parse_expr().unwrap()` at the
terminator and panics (`none`). -/
theorem C2_theorem (args : List Arg) (opts : BindgenOptions)
    (hne : args ≠ [])
    (hacc : allAccepted { options := opts, seen_named := false } args = true) :
    parse_macro_opts (encodeStream args false) opts =
      some (true, (foldArgs { options := opts, seen_named := false } args).options, []) ∧
    parse_macro_opts (encodeStream args true) opts = none := by
  constructor
  · unfold parse_macro_opts parseMacroLoop
    rw [parseLoopAux_encode_wf args _ true [] _ hne (by omega)]
    simp [hacc, semDiags_nil_of_allAccepted _ _ hacc]
  · unfold parse_macro_opts parseMacroLoop
    rw [parseLoopAux_encode_trailing args _ true [] _ hne]
    rfl

theorem C2_witness :
    parse_macro_opts (encodeStream [Arg.named "builtins" (Value.ident "false")] false)
        BindgenOptions.mkDefault =
      some (true, (foldArgs { options := BindgenOptions.mkDefault, seen_named := false }
        [Arg.named "builtins" (Value.ident "false")]).options, []) ∧
    parse_macro_opts (encodeStream [Arg.named "builtins" (Value.ident "false")] true)
        BindgenOptions.mkDefault = none :=
  C2_theorem [Arg.named "builtins" (Value.ident "false")] BindgenOptions.mkDefault
    (by decide) (by decide)

/-- Claim C3: over a well-formed stream the parse returns `true` iff every
argument's visit succeeded, emitting one "invalid argument" diagnostic per
rejected visit while continuing with the remaining arguments (first
conjunct); a syntax error (here: a literal of unsupported kind) emits
exactly one "invalid argument format" diagnostic and aborts at once, the
result being independent of the remaining tokens (second conjunct); and
parsing `bogus=1, builtins=false` reports one semantic error for `bogus`,
still applies `builtins=false`, and returns `false` (third conjunct). -/
theorem C3_theorem :
    (∀ (args : List Arg) (opts : BindgenOptions), args ≠ [] →
      parse_macro_opts (encodeStream args false) opts =
        some (allAccepted { options := opts, seen_named := false } args,
          (foldArgs { options := opts, seen_named := false } args).options,
          semDiags { options := opts, seen_named := false } args)) ∧
    (∀ (v : BindgenArgsVisitor) (ag : Bool) (ds : List String) (rest : List Token),
      parseMacroLoop v ag ds (Token.expr (ExprNode.lit LitKind.other) :: rest) =
        some (false, v, ds ++ ["invalid argument format"])) ∧
    parse_macro_opts
        [Token.ident "bogus", Token.eq,
         Token.expr (ExprNode.lit (LitKind.int 1 LitIntType.unsuffixed)), Token.comma,
         Token.ident "builtins", Token.eq, Token.ident "false"] BindgenOptions.mkDefault =
      some (false, { BindgenOptions.mkDefault with builtins := false },
        ["invalid argument"]) := by
  refine ⟨?_, ?_, by decide⟩
  · intro args opts hne
    unfold parse_macro_opts parseMacroLoop
    rw [parseLoopAux_encode_wf args _ true [] _ hne (by omega)]
    simp
  · intro v ag ds rest
    unfold parseMacroLoop
    simp only [parseLoopAux, iter_lit_other]

theorem C3_witness :
    parse_macro_opts (encodeStream [Arg.named "bogus" (Value.intLit 1 LitIntType.unsuffixed)] false)
        BindgenOptions.mkDefault =
      some (allAccepted { options := BindgenOptions.mkDefault, seen_named := false }
          [Arg.named "bogus" (Value.intLit 1 LitIntType.unsuffixed)],
        (foldArgs { options := BindgenOptions.mkDefault, seen_named := false }
          [Arg.named "bogus" (Value.intLit 1 LitIntType.unsuffixed)]).options,
        semDiags { options := BindgenOptions.mkDefault, seen_named := false }
          [Arg.named "bogus" (Value.intLit 1 LitIntType.unsuffixed)]) :=
  C3_theorem.1 [Arg.named "bogus" (Value.intLit 1 LitIntType.unsuffixed)]
    BindgenOptions.mkDefault (by decide)

/-- Claim C4: whenever any of the five visit methods rejects (returns
`false`), the target `BindgenOptions` is left exactly as it was before the
call — in particular on a malformed link specifier — so only the offending
argument's effect is omitted and fields bound by earlier successful visits
remain bound (the state is threaded, and the rejecting call leaves
`options` untouched). -/
theorem C4_theorem (v : BindgenArgsVisitor) (name : Option String) :
    (∀ val : String, (v.visit_str name val).1 = false →
      (v.visit_str name val).2.options = v.options) ∧
    (∀ val : Int, (v.visit_int name val).1 = false →
      (v.visit_int name val).2.options = v.options) ∧
    (∀ val : Nat, (v.visit_uint name val).1 = false →
      (v.visit_uint name val).2.options = v.options) ∧
    (∀ val : Bool, (v.visit_bool name val).1 = false →
      (v.visit_bool name val).2.options = v.options) ∧
    (∀ val : String, (v.visit_ident name val).1 = false →
      (v.visit_ident name val).2.options = v.options) :=
  ⟨fun val h => visit_str_reject_opts v name val h,
   fun val _ => visit_int_reject_opts v name val,
   fun val _ => visit_uint_reject_opts v name val,
   fun val h => visit_bool_reject_opts v name val h,
   fun val _ => visit_ident_reject_opts v name val⟩

theorem C4_witness :
    (BindgenArgsVisitor.visit_str { options := BindgenOptions.mkDefault, seen_named := false }
        (some "bogus") "x").2.options = BindgenOptions.mkDefault :=
  (C4_theorem { options := BindgenOptions.mkDefault, seen_named := false }
    (some "bogus")).1 "x" (by decide)

/-- Claim C5: the binder's `seen_named` flag is monotone.  Each of the five
visit methods leaves `seen_named` at `old || name.isSome` — so a call with a
name present sets it regardless of whether the visit succeeds or rejects,
and no call ever resets it (first conjunct) — and across a whole parse loop
run, once `seen_named` is `true` it is still `true` in the state the loop
returns (second conjunct). -/
theorem C5_theorem :
    (∀ (v : BindgenArgsVisitor) (name : Option String),
      (∀ val : String,
        (v.visit_str name val).2.seen_named = (v.seen_named || name.isSome)) ∧
      (∀ val : Int,
        (v.visit_int name val).2.seen_named = (v.seen_named || name.isSome)) ∧
      (∀ val : Nat,
        (v.visit_uint name val).2.seen_named = (v.seen_named || name.isSome)) ∧
      (∀ val : Bool,
        (v.visit_bool name val).2.seen_named = (v.seen_named || name.isSome)) ∧
      (∀ val : String,
        (v.visit_ident name val).2.seen_named = (v.seen_named || name.isSome))) ∧
    (∀ (n : Nat) (v : BindgenArgsVisitor) (ag : Bool) (ds : List String)
        (tts : List Token) (b : Bool) (v' : BindgenArgsVisitor) (ds' : List String),
      parseLoopAux n v ag ds tts = some (b, v', ds') → v.seen_named = true →
        v'.seen_named = true) :=
  ⟨fun v name =>
    ⟨fun val => visit_str_seen v name val,
     fun val => visit_int_seen v name val,
     fun val => visit_uint_seen v name val,
     fun val => visit_bool_seen v name val,
     fun val => visit_ident_seen v name val⟩,
   fun n v ag ds tts b v' ds' hrun h => parseLoopAux_seen n v ag ds tts b v' ds' hrun h⟩

theorem C5_witness :
    ({ options := BindgenOptions.mkDefault, seen_named := true } :
        BindgenArgsVisitor).seen_named = true :=
  C5_theorem.2 2 { options := BindgenOptions.mkDefault, seen_named := true } true []
    [Token.ident "x"] false { options := BindgenOptions.mkDefault, seen_named := true }
    ["invalid argument"] (by decide) (by decide)

/-- Claim C6: a nameless `visit_str` is defaulted to `clang_args` while
`seen_named` is still `false` — the value is split by the shell splitter and
the tokens appended in order to `clang_args`, nothing else changing — and is
rejected with no change at all once `seen_named` is `true`.  Consequently
parsing the single bare string `"-I /usr/include"` yields
`clang_args == ["-I", "/usr/include"]`, while parsing
`builtins=false, "extra"` fails overall with `clang_args` still empty (and
`builtins` bound by the earlier successful visit). -/
theorem C6_theorem :
    (∀ (v : BindgenArgsVisitor) (val : String), v.seen_named = false →
      v.visit_str none val =
        (true, { v with options := { v.options with
          clang_args := v.options.clang_args ++ parseProcessArgsStr val } })) ∧
    (∀ (v : BindgenArgsVisitor) (val : String), v.seen_named = true →
      v.visit_str none val = (false, v)) ∧
    parse_macro_opts [Token.expr (ExprNode.lit (LitKind.str "-I /usr/include"))]
        BindgenOptions.mkDefault =
      some (true, { BindgenOptions.mkDefault with clang_args := ["-I", "/usr/include"] },
        []) ∧
    parse_macro_opts [Token.ident "builtins", Token.eq, Token.ident "false", Token.comma,
        Token.expr (ExprNode.lit (LitKind.str "extra"))] BindgenOptions.mkDefault =
      some (false, { BindgenOptions.mkDefault with builtins := false },
        ["invalid argument"]) := by
  refine ⟨?_, ?_, by decide, by decide⟩
  · intro v val h
    simp [BindgenArgsVisitor.visit_str, h]
  · intro v val h
    simp [BindgenArgsVisitor.visit_str, h]

theorem C6_witness :
    ({ options := BindgenOptions.mkDefault, seen_named := false } :
        BindgenArgsVisitor).seen_named = false ∧
    BindgenArgsVisitor.visit_str { options := BindgenOptions.mkDefault, seen_named := false }
        none "-I /usr/include" =
      (true, { options := { BindgenOptions.mkDefault with
          clang_args := BindgenOptions.mkDefault.clang_args ++
            parseProcessArgsStr "-I /usr/include" }, seen_named := false }) :=
  ⟨rfl, C6_theorem.1 { options := BindgenOptions.mkDefault, seen_named := false }
    "-I /usr/include" rfl⟩

/-- Claim C7: `visit_str` with name `link` splits the value on `=`: a
one-part split appends `(part, Dynamic)`; a two-part split `kind=name` with
kind in {static, dynamic, framework} appends `(name, kind)`; any other split
(more than two parts, or an unknown kind — a zero-part split never occurs)
rejects and appends nothing, leaving only `seen_named` set.  Concretely
`link="mylib"` appends `("mylib", Dynamic)`, `link="static=mylib"` appends
`("mylib", Static)`, and `link="bogus=mylib"` is rejected leaving `links`
unchanged. -/
theorem C7_theorem :
    (∀ (v : BindgenArgsVisitor) (val p : String), splitEqStr val = [p] →
      v.visit_str (some "link") val =
        (true, { v with seen_named := true, options := { v.options with
          links := v.options.links ++ [(p, LinkType.Dynamic)] } })) ∧
    (∀ (v : BindgenArgsVisitor) (val k nm : String) (lk : LinkType),
      splitEqStr val = [k, nm] → linkKindOf k = some lk →
      v.visit_str (some "link") val =
        (true, { v with seen_named := true, options := { v.options with
          links := v.options.links ++ [(nm, lk)] } })) ∧
    (∀ (v : BindgenArgsVisitor) (val : String),
      (2 < (splitEqStr val).length ∨
        (∃ k nm, splitEqStr val = [k, nm] ∧ linkKindOf k = none)) →
      v.visit_str (some "link") val = (false, { v with seen_named := true })) ∧
    BindgenArgsVisitor.visit_str { options := BindgenOptions.mkDefault, seen_named := false }
        (some "link") "mylib" =
      (true, { options := { BindgenOptions.mkDefault with
          links := [("mylib", LinkType.Dynamic)] }, seen_named := true }) ∧
    BindgenArgsVisitor.visit_str { options := BindgenOptions.mkDefault, seen_named := false }
        (some "link") "static=mylib" =
      (true, { options := { BindgenOptions.mkDefault with
          links := [("mylib", LinkType.Static)] }, seen_named := true }) ∧
    BindgenArgsVisitor.visit_str { options := BindgenOptions.mkDefault, seen_named := false }
        (some "link") "bogus=mylib" =
      (false, { options := BindgenOptions.mkDefault, seen_named := true }) := by
  refine ⟨?_, ?_, ?_, by decide, by decide, by decide⟩
  · intro v val p hsplit
    simp [BindgenArgsVisitor.visit_str, hsplit]
  · intro v val k nm lk hsplit hkind
    simp [BindgenArgsVisitor.visit_str, hsplit, hkind]
  · intro v val hrej
    rcases hl : splitEqStr val with _ | ⟨a, _ | ⟨b, _ | ⟨c, rest⟩⟩⟩
    · simp [BindgenArgsVisitor.visit_str, hl]
    · rcases hrej with h2 | ⟨k, nm, hknm, _⟩
      · rw [hl] at h2
        simp at h2
      · rw [hl] at hknm
        simp at hknm
    · rcases hrej with h2 | ⟨k, nm, hknm, hkind⟩
      · rw [hl] at h2
        simp at h2
      · rw [hl] at hknm
        obtain ⟨rfl, rfl⟩ : a = k ∧ b = nm := by simpa using hknm
        simp [BindgenArgsVisitor.visit_str, hl, hkind]
    · simp [BindgenArgsVisitor.visit_str, hl]

theorem C7_witness :
    splitEqStr "mylib" = ["mylib"] ∧
    BindgenArgsVisitor.visit_str { options := BindgenOptions.mkDefault, seen_named := true }
        (some "link") "mylib" =
      (true,
        { options :=
            { BindgenOptions.mkDefault with
                links := BindgenOptions.mkDefault.links ++ [("mylib", LinkType.Dynamic)] },
          seen_named := true }) :=
  ⟨by decide, C7_theorem.1 { options := BindgenOptions.mkDefault, seen_named := true }
    "mylib" "mylib" (by decide)⟩

/-- Claim C8: the seven concrete splitter equations from the source's test
(`test_parse_process_args`): plain words; double- and single-quoted words;
quoted spaces kept inside one token; double quotes kept literally inside
single quotes; a backslash-escaped space joining two words; and a trailing
unescaped backslash at the true end of input preserved verbatim (not
consumed by the synthetic trailing space). -/
theorem C8_theorem :
    parseProcessArgsStr "a b c" = ["a", "b", "c"] ∧
    parseProcessArgsStr "a \"b\" c" = ["a", "b", "c"] ∧
    parseProcessArgsStr "a 'b' c" = ["a", "b", "c"] ∧
    parseProcessArgsStr "a \"b c\"" = ["a", "b c"] ∧
    parseProcessArgsStr "a '\"b\"' c" = ["a", "\"b\"", "c"] ∧
    parseProcessArgsStr "a b\\ c" = ["a", "b c"] ∧
    parseProcessArgsStr "a b c\\" = ["a", "b", "c\\"] := by
  refine ⟨by decide, by decide, by decide, by decide, by decide, by decide, by decide⟩

/-- Claim C9: on the empty token stream no name prefix is recognizable and
the current token is already the terminator, so control reaches
`parser.parse_expr().unwrap()`, whose error branch is taken (an expression
parse at end of input fails): the call panics rather than returning a
boolean — modelled as `none`. -/
theorem C9_theorem (opts : BindgenOptions) : parse_macro_opts [] opts = none := rfl

/-- Claim C10: `visit_str` with name `link` and the empty string succeeds:
splitting the empty string on `=` yields exactly one (empty) part, so
`("", Dynamic)` — an entry with an empty library name — is appended to
`links` (first conjunct); and a zero-part split can never occur for any
value, so the zero-parts rejection case is unreachable (second conjunct). -/
theorem C10_theorem :
    (∀ v : BindgenArgsVisitor, v.visit_str (some "link") "" =
      (true, { v with seen_named := true, options := { v.options with
        links := v.options.links ++ [("", LinkType.Dynamic)] } })) ∧
    (∀ val : String, 1 ≤ (splitEqStr val).length) := by
  constructor
  · intro v
    simp [BindgenArgsVisitor.visit_str]
    rfl
  · intro val
    have h := splitEq_ne_nil val.toList
    simpa [splitEqStr] using List.length_pos.mpr h

end BindgenPlugin
